import Mathlib

/-!
Verification development for the movie recommendation engine
(ai_recommender.py, user_preference.py, movielens.py).

Modeling conventions used throughout this shallow embedding:

* Python floats and float literals are modeled as exact rationals (`ℚ`);
  decimal literals such as 0.03, 0.05, -1e9 are the exact rationals
  3/100, 1/20, -(10^9).  The only genuinely irrational quantity in the
  code, the square root inside the cosine-similarity norms of
  `compute_item_similarities_blockwise`, is modeled over `ℝ` with
  `Real.sqrt`.
* Free text is modeled at the word level: a Python string that is built
  by `' '.join(...)` and consumed by whitespace tokenization is modeled
  as the `List String` of its whitespace-delimited tokens, so `' '.join`
  becomes list concatenation/flattening and word counting becomes
  `List.length`.
* Python dicts keyed by strings or ints are modeled either as
  association lists or as functions into `Option`; dict assignment is
  pointwise functional update.  `str(movie_id)` keys are modeled by the
  integer id itself (the conversion is injective).
* Python `round(x, n)` rounds half to even; `pyRound` below implements
  the same rule on exact rationals.
* Stateful methods are modeled as pure functions from the loaded state
  to the updated state; disk I/O, HTTP fetches and exception plumbing at
  the provider boundary are outside the embedding.  A code path that is
  reached only through a swallowed exception is modeled by the value the
  caller observes.
-/

/-- Round a rational to the nearest integer, ties to even: the rule used
by Python `round`. -/
def pyRoundHalfEven (y : ℚ) : ℤ :=
  let f := ⌊y⌋
  let r := y - f
  if r < 1/2 then f
  else if 1/2 < r then f + 1
  else if f % 2 = 0 then f else f + 1

/-- Python `round(x, d)` on exact rationals. -/
def pyRound (x : ℚ) (d : ℕ) : ℚ :=
  (pyRoundHalfEven (x * 10 ^ d) : ℚ) / 10 ^ d

/-! ## Profile and feature builder (ai_recommender.py)

`MovieRecommendationEngine.create_feature_string` receives the profile
dict built by `build_movie_profile`.  Every text field is modeled as its
list of whitespace tokens (see the header); the truthiness test
`if profile.get(field):` on a list or string field is the test for the
empty list.  `features.extend([s] * k)` followed by the final
`' '.join(features)` is, at the token level, `List.replicate k block`
followed by `List.flatten`. -/

structure MovieProfile where
  genres : List String
  director : List String
  keywords : List String
  ml_tags : List String
  cast : List String
  overview : List String
  crew : List String
deriving Repr, DecidableEq

/-- Token-level embedding of `MovieRecommendationEngine.create_feature_string`:
each present field contributes its space-joined block repeated by its
weight (genres x3, director x3, keywords x2, ml_tags x2, cast x2,
overview x1, crew x1, in this order); absent fields contribute nothing. -/
def create_feature_string (p : MovieProfile) : List String :=
  let features : List (List String) :=
    (if p.genres ≠ [] then List.replicate 3 p.genres else []) ++
    (if p.director ≠ [] then List.replicate 3 p.director else []) ++
    (if p.keywords ≠ [] then List.replicate 2 p.keywords else []) ++
    (if p.ml_tags ≠ [] then List.replicate 2 p.ml_tags else []) ++
    (if p.cast ≠ [] then List.replicate 2 p.cast else []) ++
    (if p.overview ≠ [] then [p.overview] else []) ++
    (if p.crew ≠ [] then [p.crew] else [])
  features.flatten

theorem flatten_replicate_guard (l : List String) (k : ℕ) :
    (if l ≠ [] then List.replicate k l else []).flatten = (List.replicate k l).flatten := by
  split
  · rfl
  · simp_all

theorem flatten_replicate_len (l : List String) (k : ℕ) :
    (List.replicate k l).flatten.length = k * l.length := by
  induction k with
  | zero => simp
  | succ n ih => simp [List.replicate_succ, ih]; ring

/-- C1: for every item profile, `create_feature_string` is the ordered
concatenation genres x3, director x3, keywords x2, ml_tags x2, cast x2,
overview x1, crew x1, each block space-joined (here: token-flattened)
before repetition, with empty fields contributing no tokens; hence the
word count attributable to each field is its repetition weight times its
token count, and the total length is the weighted sum. -/
theorem create_feature_string_weighted_concat (p : MovieProfile) :
    create_feature_string p =
      (List.replicate 3 p.genres).flatten ++ (List.replicate 3 p.director).flatten ++
      (List.replicate 2 p.keywords).flatten ++ (List.replicate 2 p.ml_tags).flatten ++
      (List.replicate 2 p.cast).flatten ++ p.overview ++ p.crew ∧
    (create_feature_string p).length =
      3 * p.genres.length + 3 * p.director.length + 2 * p.keywords.length +
      2 * p.ml_tags.length + 2 * p.cast.length + p.overview.length + p.crew.length := by
  have hmain : create_feature_string p =
      (List.replicate 3 p.genres).flatten ++ (List.replicate 3 p.director).flatten ++
      (List.replicate 2 p.keywords).flatten ++ (List.replicate 2 p.ml_tags).flatten ++
      (List.replicate 2 p.cast).flatten ++ p.overview ++ p.crew := by
    unfold create_feature_string
    simp only [List.flatten_append]
    rw [flatten_replicate_guard p.genres 3, flatten_replicate_guard p.director 3,
      flatten_replicate_guard p.keywords 2, flatten_replicate_guard p.ml_tags 2,
      flatten_replicate_guard p.cast 2]
    have hov : (if p.overview ≠ [] then [p.overview] else []).flatten = p.overview := by
      split <;> simp_all
    have hcr : (if p.crew ≠ [] then [p.crew] else []).flatten = p.crew := by
      split <;> simp_all
    rw [hov, hcr]
  refine ⟨hmain, ?_⟩
  rw [hmain]
  simp only [List.length_append, flatten_replicate_len]

/-! ## Collaborative-filtering model at serving time (movielens.py)

`load_similarity_model` deserializes the payload written by
`build_and_save_cf_model`; `CFModel` mirrors that payload at the level
used by the recommenders.  Neighbor scores, loaded floats, are modeled
as rationals.  Dict lookups are association-list lookups; `np.argsort`
over negated scores is modeled as a stable descending sort of the
positions (the claims settled here do not depend on tie order). -/

structure CFModel where
  item_index : List (ℕ × ℕ)
  top_indices : List (List ℕ)
  top_scores : List (List ℚ)
  index_to_movieId : List ℕ
  movieId_to_tmdbId : List (ℕ × ℕ)
  tmdbId_to_movieId : List (ℕ × ℕ)
deriving Repr

/-- Python dict lookup `d.get(k)` on an association list built by
insertion: the last binding of a key wins. -/
def dictGet (l : List (ℕ × ℕ)) (k : ℕ) : Option ℕ :=
  ((l.filter (fun kv => kv.1 = k)).map (·.2)).getLast?

/-- Positions of `scores`, stably sorted by descending score:
`np.argsort(-scores)`. -/
def argsortDesc (scores : List ℚ) : List ℕ :=
  List.insertionSort (fun a b => scores.getD b 0 ≤ scores.getD a 0)
    (List.range scores.length)

/-- Inner loop of `recommend_similar_by_movieId`: walk the neighbor
positions in score order, keep positive-score neighbors other than the
seed, and stop once `top_n` ids are collected (the length test runs
after each append, as in the source). -/
def collectMovieRecs (movie_id top_n : ℕ) (neighbors : List ℕ) (scores : List ℚ)
    (index_to_movieId : List ℕ) : List ℕ → List ℕ → List ℕ
  | [], recs => recs
  | j :: rest, recs =>
    let mid := index_to_movieId.getD (neighbors.getD j 0) 0
    let recs' := if mid ≠ movie_id ∧ 0 < scores.getD j 0 then recs ++ [mid] else recs
    if top_n ≤ recs'.length then recs'
    else collectMovieRecs movie_id top_n neighbors scores index_to_movieId rest recs'

/-- Embedding of `recommend_similar_by_movieId`. -/
def recommend_similar_by_movieId (movie_id : ℕ) (model : CFModel)
    (index_to_movieId : List ℕ) (top_n : ℕ) : List ℕ :=
  match dictGet model.item_index movie_id with
  | none => []
  | some idx =>
    let neighbors := model.top_indices.getD idx []
    let scores := model.top_scores.getD idx []
    collectMovieRecs movie_id top_n neighbors scores index_to_movieId
      (argsortDesc scores) []

/-- Inner loop of `recommend_similar_by_tmdbId`: map MovieLens ids back
to TMDb ids, dropping missing or falsy (zero) ids, stopping at `top_n`. -/
def collectTmdbRecs (movie_to_tmdb : List (ℕ × ℕ)) (top_n : ℕ) :
    List ℕ → List ℕ → List ℕ
  | [], recs => recs
  | mid :: rest, recs =>
    let recs' := match dictGet movie_to_tmdb mid with
      | some tid => if tid ≠ 0 then recs ++ [tid] else recs
      | none => recs
    if top_n ≤ recs'.length then recs'
    else collectTmdbRecs movie_to_tmdb top_n rest recs'

/-- Embedding of `recommend_similar_by_tmdbId`. -/
def recommend_similar_by_tmdbId (tmdb_id : ℕ) (model : CFModel) (top_n : ℕ) : List ℕ :=
  match dictGet model.tmdbId_to_movieId tmdb_id with
  | none => []
  | some ml_movie_id =>
    let rec_ml_ids := recommend_similar_by_movieId ml_movie_id model
      model.index_to_movieId (top_n * 2)
    collectTmdbRecs model.movieId_to_tmdbId top_n rec_ml_ids []

/-- Embedding of `MovieRecommendationEngine._cf_neighbors_for_tmdb`: the
CF model is `none` when loading failed, the snapshot file is absent, or
the MovieLens stack is unavailable; in those cases the neighbor set is
empty.  Python returns `set(recs)`; membership in that set equals
membership in the returned list. -/
def cf_neighbors_for_tmdb (cf_model : Option CFModel) (tmdb_id top_n : ℕ) : List ℕ :=
  match cf_model with
  | none => []
  | some m => recommend_similar_by_tmdbId tmdb_id m top_n

/-! ## Hybrid scorer (get_intelligent_recommendations, scoring loop) -/

structure CandProfile where
  id : ℕ
  vote_average : ℚ
  popularity : ℚ
  release_year : ℕ
deriving Repr, DecidableEq

instance : Inhabited CandProfile := ⟨⟨0, 0, 0, 0⟩⟩

structure ScoredMovie where
  profile : CandProfile
  similarity_score : ℚ
  final_score : ℚ
deriving Repr, DecidableEq

instance : Inhabited ScoredMovie := ⟨⟨default, 0, 0⟩⟩

/-- Rating boost: `(rating / 10) * 0.08 if rating >= 6 else 0`. -/
def rating_boost (p : CandProfile) : ℚ :=
  if 6 ≤ p.vote_average then p.vote_average / 10 * (8/100) else 0

/-- Popularity boost: `min(popularity / 1000, 0.02)`. -/
def popularity_boost (p : CandProfile) : ℚ :=
  min (p.popularity / 1000) (2/100)

/-- Age penalty: `-0.05` when the release year is known (> 0), earlier
than 1990 and the rating is below 7.5.  `int(profile.get('release_year',
'0') or '0')` is modeled by a `ℕ` year with 0 for unknown. -/
def age_penalty (p : CandProfile) : ℚ :=
  if 0 < p.release_year ∧ p.release_year < 1990 ∧ p.vote_average < 15/2 then -(5/100) else 0

/-- Collaborative boost: `0.05` when the neighbor set is nonempty and
contains the candidate id, else `0`. -/
def cf_boost (cf_neighbors : List ℕ) (p : CandProfile) : ℚ :=
  if cf_neighbors ≠ [] ∧ p.id ∈ cf_neighbors then 5/100 else 0

/-- One iteration of the scoring loop body (after the noise-floor test). -/
def score_candidate (cf_neighbors : List ℕ) (p : CandProfile) (score : ℚ) : ScoredMovie :=
  { profile := p
    similarity_score := score
    final_score := score + rating_boost p + popularity_boost p + age_penalty p +
      cf_boost cf_neighbors p }

/-- The scoring loop over `enumerate(candidate_profiles)` with
`score = similarities[i]`: candidates below the 0.03 noise floor are
skipped, the rest are scored. -/
def score_candidates (profiles : List CandProfile) (similarities : List ℚ)
    (cf_neighbors : List ℕ) : List ScoredMovie :=
  (profiles.zip similarities).filterMap fun ps =>
    if ps.2 < 3/100 then none else some (score_candidate cf_neighbors ps.1 ps.2)

/-- C3: the hybrid scorer adds exactly +0.05 to the final score iff the
candidate id is in the CF neighbor set computed for the seed from the
loaded model, and when no model is loaded the neighbor set is empty, so
the boost is 0 for every candidate. -/
theorem cf_boost_iff_neighbor (cf_model : Option CFModel) (tmdb_id top_n : ℕ)
    (p : CandProfile) (score : ℚ) :
    (score_candidate (cf_neighbors_for_tmdb cf_model tmdb_id top_n) p score).final_score =
      score + rating_boost p + popularity_boost p + age_penalty p +
        (if p.id ∈ cf_neighbors_for_tmdb cf_model tmdb_id top_n then 5/100 else 0) ∧
    (cf_boost (cf_neighbors_for_tmdb cf_model tmdb_id top_n) p = 5/100 ↔
      p.id ∈ cf_neighbors_for_tmdb cf_model tmdb_id top_n) ∧
    (cf_model = none → cf_neighbors_for_tmdb cf_model tmdb_id top_n = []) := by
  have hb : cf_boost (cf_neighbors_for_tmdb cf_model tmdb_id top_n) p =
      (if p.id ∈ cf_neighbors_for_tmdb cf_model tmdb_id top_n then 5/100 else 0) := by
    unfold cf_boost
    by_cases hmem : p.id ∈ cf_neighbors_for_tmdb cf_model tmdb_id top_n
    · have hne : cf_neighbors_for_tmdb cf_model tmdb_id top_n ≠ [] := by
        intro h; rw [h] at hmem; exact absurd hmem (List.not_mem_nil _)
      simp [hmem, hne]
    · simp [hmem]
  refine ⟨?_, ?_, ?_⟩
  · unfold score_candidate
    rw [hb]
  · rw [hb]
    by_cases hmem : p.id ∈ cf_neighbors_for_tmdb cf_model tmdb_id top_n
    · simp [hmem]
    · simp [hmem]
      norm_num
  · intro h; rw [h]; rfl

/-- C4: for every candidate passing the similarity filter, the score
adjustments are exactly the rating boost, popularity boost and age
penalty of the claim, and the final score is the raw similarity plus
these boosts and penalty plus the collaborative boost. -/
theorem score_adjustments_exact (profiles : List CandProfile) (similarities : List ℚ)
    (cf_neighbors : List ℕ) (m : ScoredMovie)
    (hm : m ∈ score_candidates profiles similarities cf_neighbors) :
    m.final_score = m.similarity_score + rating_boost m.profile +
      popularity_boost m.profile + age_penalty m.profile + cf_boost cf_neighbors m.profile ∧
    rating_boost m.profile =
      (if 6 ≤ m.profile.vote_average then m.profile.vote_average / 10 * (8/100) else 0) ∧
    popularity_boost m.profile = min (m.profile.popularity / 1000) (2/100) ∧
    age_penalty m.profile =
      (if 0 < m.profile.release_year ∧ m.profile.release_year < 1990 ∧
          m.profile.vote_average < 15/2 then -(5/100) else 0) := by
  obtain ⟨ps, _, hmk⟩ := List.mem_filterMap.1 hm
  have hm' : m = score_candidate cf_neighbors ps.1 ps.2 := by
    by_cases hlt : ps.2 < 3/100
    · simp [hlt] at hmk
    · simp [hlt] at hmk; exact hmk.symm
  subst hm'
  exact ⟨rfl, rfl, rfl, rfl⟩

/-- Witness for `score_adjustments_exact` at a concrete candidate list. -/
theorem score_adjustments_exact_witness :
    (⟨⟨7, 8, 500, 1985⟩, 1/2, 1/2 + 8/10 * (8/100) + 2/100 + 0 + 0⟩ : ScoredMovie) ∈
      score_candidates [⟨7, 8, 500, 1985⟩] [1/2] [] ∧
    (⟨⟨7, 8, 500, 1985⟩, 1/2, 1/2 + 8/10 * (8/100) + 2/100 + 0 + 0⟩ : ScoredMovie).final_score =
      (1/2 : ℚ) + rating_boost ⟨7, 8, 500, 1985⟩ + popularity_boost ⟨7, 8, 500, 1985⟩ +
        age_penalty ⟨7, 8, 500, 1985⟩ + cf_boost [] ⟨7, 8, 500, 1985⟩ := by
  have hmem : (⟨⟨7, 8, 500, 1985⟩, 1/2, 1/2 + 8/10 * (8/100) + 2/100 + 0 + 0⟩ : ScoredMovie) ∈
      score_candidates [⟨7, 8, 500, 1985⟩] [1/2] [] := by
    simp [score_candidates, score_candidate, rating_boost, popularity_boost, age_penalty,
      cf_boost]
    norm_num
  exact ⟨hmem, (score_adjustments_exact [⟨7, 8, 500, 1985⟩] [1/2] [] _ hmem).1⟩

/-! ## Diversification: greedy MMR selection (get_intelligent_recommendations)

The MMR loop works on positions `si` into the scored list; `idToIdx`
is the dict mapping a profile id to its index in `candidate_profiles`
and `pw` the pairwise content-similarity matrix (their values are
parameters of the embedding).  `best_mmr` starts at `-1e9` and is beaten
only strictly, so the first position attaining the maximum wins.  If no
position beats `-1e9` the source raises (`available.remove(None)`) and
the surrounding `except` falls back to the plain top-N prefix; the
embedding models that path by `none`. -/

def mmrVal (lam : ℚ) (scored : List ScoredMovie) (idToIdx : ℕ → Option ℕ)
    (pw : ℕ → ℕ → ℚ) (selected : List ℕ) (si : ℕ) : ℚ :=
  let rel := (scored.getD si default).final_score
  let divTerm : ℚ :=
    match idToIdx (scored.getD si default).profile.id with
    | none => 0
    | some idx =>
      if selected = [] then 0
      else
        match (selected.filterMap fun j => idToIdx (scored.getD j default).profile.id).map
            (fun s => pw idx s) with
        | [] => 0
        | x :: xs => xs.foldl max x
  lam * rel - (1 - lam) * divTerm

/-- One candidate test of the arg-max scan (`if mmr > best_mmr`). -/
def pickStep (f : ℕ → ℚ) (acc : Option ℕ × ℚ) (si : ℕ) : Option ℕ × ℚ :=
  let m := f si
  if acc.2 < m then (some si, m) else acc

/-- The arg-max scan over the available positions. -/
def mmrBest (lam : ℚ) (scored : List ScoredMovie) (idToIdx : ℕ → Option ℕ)
    (pw : ℕ → ℕ → ℚ) (selected : List ℕ) (available : List ℕ) : Option ℕ :=
  (available.foldl (pickStep (mmrVal lam scored idToIdx pw selected))
    ((none : Option ℕ), -(1000000000 : ℚ))).1

/-- The `while available and len(selected) < num_recommendations` loop;
the fuel argument is the number of slots still to fill. -/
def mmrLoop (lam : ℚ) (scored : List ScoredMovie) (idToIdx : ℕ → Option ℕ)
    (pw : ℕ → ℕ → ℚ) : List ℕ → List ℕ → ℕ → Option (List ℕ)
  | selected, _, 0 => some selected
  | selected, available, n + 1 =>
    if available = [] then some selected
    else
      match mmrBest lam scored idToIdx pw selected available with
      | none => none
      | some i => mmrLoop lam scored idToIdx pw (selected ++ [i]) (available.erase i) n

/-- MMR selection over a scored list: returns the selected scored
movies, or the plain top-n prefix when the loop fails (the `except`
fallback of the source). -/
def mmr_select (lam : ℚ) (scored : List ScoredMovie) (idToIdx : ℕ → Option ℕ)
    (pw : ℕ → ℕ → ℚ) (n : ℕ) : List ScoredMovie :=
  match mmrLoop lam scored idToIdx pw [] (List.range scored.length) n with
  | some sel => sel.map fun i => scored.getD i default
  | none => scored.take n

/-- The dict comprehension `{p['id']: idx for idx, p in enumerate(candidate_profiles)}`:
the last profile with a given id wins. -/
def id_to_idx (profiles : List CandProfile) : ℕ → Option ℕ := fun i =>
  ((profiles.enum.filter fun p => p.2.id = i).map (·.1)).getLast?

/-- The scored, filtered, sorted and MMR-diversified selection of
`get_intelligent_recommendations` (reranker disabled, its default). -/
def intelligent_selection (profiles : List CandProfile) (similarities : List ℚ)
    (cf_neighbors : List ℕ) (pw : ℕ → ℕ → ℚ) (num_recommendations : ℕ) :
    List ScoredMovie :=
  let scored := score_candidates profiles similarities cf_neighbors
  let scored := scored.filter fun m => decide ((3 : ℚ)/100 ≤ m.similarity_score)
  let sorted := List.insertionSort (fun a b => b.final_score ≤ a.final_score) scored
  (mmr_select (7/10) sorted (id_to_idx profiles) pw num_recommendations).take
    num_recommendations

structure RecEntry where
  id : ℕ
  similarity_score : ℚ
  profile : CandProfile
deriving Repr, DecidableEq

/-- Embedding of `get_intelligent_recommendations` downstream of the
similarity computation: candidate profiles and their raw similarities to
the seed come in, formatted recommendations (similarity as a rounded
percentage) come out. -/
def get_intelligent_recommendations_core (profiles : List CandProfile)
    (similarities : List ℚ) (cf_neighbors : List ℕ) (pw : ℕ → ℕ → ℚ)
    (num_recommendations : ℕ) : List RecEntry :=
  (intelligent_selection profiles similarities cf_neighbors pw num_recommendations).map
    fun m =>
      { id := m.profile.id
        similarity_score := pyRound (m.similarity_score * 100) 1
        profile := m.profile }

theorem getD_mem_of_lt {α : Type} [Inhabited α] (L : List α) (i : ℕ) (h : i < L.length) :
    L.getD i default ∈ L := by
  rw [List.getD_eq_getElem?_getD, List.getElem?_eq_getElem h]
  exact List.getElem_mem h

theorem pickStep_fst_mem (f : ℕ → ℚ) (l : List ℕ) :
    ∀ (b : Option ℕ) (v : ℚ) (i : ℕ),
      (l.foldl (pickStep f) (b, v)).1 = some i → b = some i ∨ i ∈ l := by
  induction l with
  | nil => intro b v i h; exact Or.inl h
  | cons x xs ih =>
    intro b v i h
    simp only [List.foldl_cons] at h
    rcases ih (pickStep f (b, v) x).1 (pickStep f (b, v) x).2 i (by simpa using h) with h1 | h1
    · unfold pickStep at h1
      by_cases hlt : v < f x
      · simp [hlt] at h1
        exact Or.inr (by simp [h1])
      · simp [hlt] at h1
        exact Or.inl h1
    · exact Or.inr (List.mem_cons_of_mem _ h1)

theorem mmrBest_mem (lam : ℚ) (scored : List ScoredMovie) (idToIdx : ℕ → Option ℕ)
    (pw : ℕ → ℕ → ℚ) (selected available : List ℕ) (i : ℕ)
    (h : mmrBest lam scored idToIdx pw selected available = some i) : i ∈ available := by
  unfold mmrBest at h
  rcases pickStep_fst_mem (mmrVal lam scored idToIdx pw selected) available none
    (-(1000000000 : ℚ)) i h with h1 | h1
  · exact absurd h1 (by simp)
  · exact h1

theorem mmrLoop_mem (lam : ℚ) (scored : List ScoredMovie) (idToIdx : ℕ → Option ℕ)
    (pw : ℕ → ℕ → ℚ) :
    ∀ (n : ℕ) (selected available out : List ℕ),
      mmrLoop lam scored idToIdx pw selected available n = some out →
      ∀ i ∈ out, i ∈ selected ∨ i ∈ available := by
  intro n
  induction n with
  | zero =>
    intro selected available out h i hi
    simp only [mmrLoop] at h
    injection h with h2
    exact Or.inl (h2.symm ▸ hi)
  | succ n ih =>
    intro selected available out h i hi
    simp only [mmrLoop] at h
    by_cases hav : available = []
    · simp [hav] at h
      exact Or.inl (h.symm ▸ hi)
    · simp only [hav, if_false] at h
      cases hbest : mmrBest lam scored idToIdx pw selected available with
      | none => rw [hbest] at h; exact absurd h (by simp)
      | some j =>
        rw [hbest] at h
        rcases ih _ _ _ h i hi with h1 | h1
        · rcases List.mem_append.1 h1 with h2 | h2
          · exact Or.inl h2
          · simp at h2
            exact Or.inr (h2 ▸ mmrBest_mem _ _ _ _ _ _ _ hbest)
        · exact Or.inr (List.erase_subset _ _ h1)

theorem mmr_select_mem (lam : ℚ) (scored : List ScoredMovie) (idToIdx : ℕ → Option ℕ)
    (pw : ℕ → ℕ → ℚ) (n : ℕ) (m : ScoredMovie)
    (h : m ∈ mmr_select lam scored idToIdx pw n) : m ∈ scored := by
  unfold mmr_select at h
  cases hloop : mmrLoop lam scored idToIdx pw [] (List.range scored.length) n with
  | none => rw [hloop] at h; exact List.take_subset _ _ h
  | some sel =>
    rw [hloop] at h
    obtain ⟨i, hi, rfl⟩ := List.mem_map.1 h
    rcases mmrLoop_mem lam scored idToIdx pw n [] _ sel hloop i hi with h1 | h1
    · exact absurd h1 (List.not_mem_nil _)
    · exact getD_mem_of_lt _ _ (List.mem_range.1 h1)

/-- C2: every entry of the list returned by
`get_intelligent_recommendations` comes from a scored candidate whose
raw vector similarity is at least 0.03; a candidate below the noise
floor never appears, independent of rating, popularity, age or
collaborative boosts. -/
theorem noise_floor_filter (profiles : List CandProfile) (similarities : List ℚ)
    (cf_neighbors : List ℕ) (pw : ℕ → ℕ → ℚ) (num_recommendations : ℕ) (r : RecEntry)
    (hr : r ∈ get_intelligent_recommendations_core profiles similarities cf_neighbors pw
      num_recommendations) :
    ∃ m ∈ intelligent_selection profiles similarities cf_neighbors pw num_recommendations,
      (3 : ℚ)/100 ≤ m.similarity_score ∧
      r = { id := m.profile.id, similarity_score := pyRound (m.similarity_score * 100) 1,
            profile := m.profile } := by
  obtain ⟨m, hm, rfl⟩ := List.mem_map.1 hr
  refine ⟨m, hm, ?_, rfl⟩
  have hm' : m ∈ mmr_select (7/10)
      (List.insertionSort (fun a b => b.final_score ≤ a.final_score)
        ((score_candidates profiles similarities cf_neighbors).filter
          fun x => decide ((3 : ℚ)/100 ≤ x.similarity_score)))
      (id_to_idx profiles) pw num_recommendations := List.take_subset _ _ hm
  have hsorted := mmr_select_mem _ _ _ _ _ _ hm'
  have hfilter := (List.mem_insertionSort _).1 hsorted
  have := (List.mem_filter.1 hfilter).2
  exact of_decide_eq_true this

/-- Witness for `noise_floor_filter` on a concrete one-candidate pool. -/
theorem noise_floor_filter_witness :
    ({ id := 7, similarity_score := pyRound ((1:ℚ)/2 * 100) 1,
       profile := ⟨7, 0, 0, 0⟩ } : RecEntry) ∈
      get_intelligent_recommendations_core [⟨7, 0, 0, 0⟩] [1/2] [] (fun _ _ => 0) 1 ∧
    ∃ m ∈ intelligent_selection [⟨7, 0, 0, 0⟩] [1/2] [] (fun _ _ => 0) 1,
      (3 : ℚ)/100 ≤ m.similarity_score ∧
      ({ id := 7, similarity_score := pyRound ((1:ℚ)/2 * 100) 1,
         profile := ⟨7, 0, 0, 0⟩ } : RecEntry) =
        { id := m.profile.id, similarity_score := pyRound (m.similarity_score * 100) 1,
          profile := m.profile } := by
  have hmem : ({ id := 7, similarity_score := pyRound ((1:ℚ)/2 * 100) 1,
                 profile := ⟨7, 0, 0, 0⟩ } : RecEntry) ∈
      get_intelligent_recommendations_core [⟨7, 0, 0, 0⟩] [1/2] [] (fun _ _ => 0) 1 := by
    have hsc : score_candidates [⟨7, 0, 0, 0⟩] [1/2] [] =
        [⟨⟨7, 0, 0, 0⟩, 1/2, 1/2⟩] := by
      norm_num [score_candidates, score_candidate, rating_boost, popularity_boost,
        age_penalty, cf_boost, min_def, List.filterMap_cons, List.filterMap_nil]
    have hsel : intelligent_selection [⟨7, 0, 0, 0⟩] [1/2] [] (fun _ _ => 0) 1 =
        [⟨⟨7, 0, 0, 0⟩, 1/2, 1/2⟩] := by
      rw [intelligent_selection, hsc]
      norm_num [mmr_select, mmrLoop, mmrBest, mmrVal, pickStep, id_to_idx,
        List.range_succ, List.insertionSort, List.orderedInsert, List.enum,
        List.enumFrom]
    rw [get_intelligent_recommendations_core, hsel]
    norm_num [pyRound, pyRoundHalfEven]
  exact ⟨hmem, noise_floor_filter _ _ _ _ _ _ hmem⟩

/-! ## MMR selection: arg-max analysis and the relevance-only case -/

/-- Specification-side first arg-max of `f` over a list of positions:
the earliest position attaining the maximum. -/
def argmaxFirst (f : ℕ → ℚ) : List ℕ → Option ℕ
  | [] => none
  | x :: xs =>
    match argmaxFirst f xs with
    | none => some x
    | some y => if f x < f y then some y else some x

theorem argmaxFirst_eq_none (f : ℕ → ℚ) (l : List ℕ) :
    argmaxFirst f l = none ↔ l = [] := by
  cases l with
  | nil => simp [argmaxFirst]
  | cons x xs =>
    simp only [argmaxFirst]
    cases argmaxFirst f xs with
    | none => simp
    | some y =>
      by_cases h : f x < f y <;> simp [h]

theorem argmaxFirst_mem (f : ℕ → ℚ) :
    ∀ (l : List ℕ) (m : ℕ), argmaxFirst f l = some m → m ∈ l := by
  intro l
  induction l with
  | nil => intro m h; exact absurd h (by simp [argmaxFirst])
  | cons x xs ih =>
    intro m h
    cases hxs : argmaxFirst f xs with
    | none =>
      simp only [argmaxFirst, hxs, Option.some.injEq] at h
      subst h
      exact List.mem_cons_self _ _
    | some y =>
      by_cases hxy : f x < f y
      · simp only [argmaxFirst, hxs, hxy, if_true, Option.some.injEq] at h
        subst h
        exact List.mem_cons_of_mem x (ih _ hxs)
      · simp only [argmaxFirst, hxs, hxy, if_false, Option.some.injEq] at h
        subst h
        exact List.mem_cons_self _ _

theorem argmaxFirst_split (f : ℕ → ℚ) :
    ∀ (l : List ℕ) (m : ℕ), argmaxFirst f l = some m →
      ∃ l₁ l₂, l = l₁ ++ m :: l₂ ∧ (∀ x ∈ l₁, f x < f m) ∧ ∀ x ∈ l₂, f x ≤ f m := by
  intro l
  induction l with
  | nil => intro m h; exact absurd h (by simp [argmaxFirst])
  | cons x xs ih =>
    intro m h
    cases hxs : argmaxFirst f xs with
    | none =>
      simp only [argmaxFirst, hxs, Option.some.injEq] at h
      subst h
      have hnil : xs = [] := (argmaxFirst_eq_none f xs).1 hxs
      exact ⟨[], [], by simp [hnil], by simp, by simp⟩
    | some y =>
      by_cases hxy : f x < f y
      · simp only [argmaxFirst, hxs, hxy, if_true, Option.some.injEq] at h
        rw [← h]
        obtain ⟨l₁, l₂, heq, h₁, h₂⟩ := ih _ hxs
        refine ⟨x :: l₁, l₂, by simp [heq], ?_, h₂⟩
        intro z hz
        rcases List.mem_cons.1 hz with rfl | hz
        · exact hxy
        · exact h₁ z hz
      · simp only [argmaxFirst, hxs, hxy, if_false, Option.some.injEq] at h
        rw [← h]
        obtain ⟨l₁, l₂, heq, h₁, h₂⟩ := ih _ hxs
        have hyx : f y ≤ f x := not_lt.1 hxy
        refine ⟨[], xs, by simp, by simp, ?_⟩
        intro z hz
        rw [heq] at hz
        rcases List.mem_append.1 hz with hz | hz
        · exact le_trans (le_of_lt (h₁ z hz)) hyx
        · rcases List.mem_cons.1 hz with rfl | hz
          · exact hyx
          · exact le_trans (h₂ z hz) hyx

theorem argmaxFirst_of_split (f : ℕ → ℚ) :
    ∀ (l₁ : List ℕ) (l₂ : List ℕ) (i : ℕ),
      (∀ x ∈ l₁, f x < f i) → (∀ x ∈ l₂, f x ≤ f i) →
      argmaxFirst f (l₁ ++ i :: l₂) = some i := by
  intro l₁
  induction l₁ with
  | nil =>
    intro l₂ i _ h₂
    cases hl : argmaxFirst f l₂ with
    | none => simp only [List.nil_append, argmaxFirst, hl]
    | some y =>
      have hy : f y ≤ f i := h₂ y (argmaxFirst_mem f l₂ y hl)
      simp only [List.nil_append, argmaxFirst, hl, not_lt.2 hy, if_false]
  | cons x l₁ ih =>
    intro l₂ i h₁ h₂
    have hrec : argmaxFirst f (l₁ ++ i :: l₂) = some i :=
      ih l₂ i (fun z hz => h₁ z (List.mem_cons_of_mem x hz)) h₂
    simp only [List.cons_append, argmaxFirst, List.append_eq, hrec,
      h₁ x (List.mem_cons_self x l₁), if_true]

theorem foldl_pick (f : ℕ → ℚ) :
    ∀ (l : List ℕ) (b : Option ℕ) (v : ℚ),
      l.foldl (pickStep f) (b, v) =
        match argmaxFirst f l with
        | none => (b, v)
        | some m => if v < f m then (some m, f m) else (b, v) := by
  intro l
  induction l with
  | nil => intro b v; rfl
  | cons x xs ih =>
    intro b v
    rw [List.foldl_cons]
    by_cases hvx : v < f x
    · have hstep : pickStep f (b, v) x = (some x, f x) := by simp [pickStep, hvx]
      rw [hstep, ih]
      cases hxs : argmaxFirst f xs with
      | none => simp [argmaxFirst, hxs, hvx]
      | some y =>
        by_cases hxy : f x < f y
        · simp [argmaxFirst, hxs, hxy, hvx, lt_trans hvx hxy]
        · simp [argmaxFirst, hxs, hxy, hvx]
    · have hstep : pickStep f (b, v) x = (b, v) := by simp [pickStep, hvx]
      rw [hstep, ih]
      cases hxs : argmaxFirst f xs with
      | none => simp [argmaxFirst, hxs, hvx]
      | some y =>
        by_cases hxy : f x < f y
        · simp [argmaxFirst, hxs, hxy]
        · have hyx : f y ≤ f x := not_lt.1 hxy
          have hvy : ¬ v < f y := fun h => hvx (lt_of_lt_of_le h hyx)
          simp [argmaxFirst, hxs, hxy, hvx, hvy]

theorem mmrBest_eq_argmax (lam : ℚ) (scored : List ScoredMovie) (idToIdx : ℕ → Option ℕ)
    (pw : ℕ → ℕ → ℚ) (selected available : List ℕ) :
    mmrBest lam scored idToIdx pw selected available =
      match argmaxFirst (mmrVal lam scored idToIdx pw selected) available with
      | none => none
      | some m =>
        if -(1000000000 : ℚ) < mmrVal lam scored idToIdx pw selected m then some m
        else none := by
  unfold mmrBest
  rw [foldl_pick]
  cases argmaxFirst (mmrVal lam scored idToIdx pw selected) available with
  | none => rfl
  | some m =>
    by_cases h : -(1000000000 : ℚ) < mmrVal lam scored idToIdx pw selected m
    · simp [h]
    · simp [h]

theorem mmrVal_one (scored : List ScoredMovie) (idToIdx : ℕ → Option ℕ)
    (pw : ℕ → ℕ → ℚ) (selected : List ℕ) (si : ℕ) :
    mmrVal 1 scored idToIdx pw selected si = (scored.getD si default).final_score := by
  unfold mmrVal
  norm_num

theorem insertionSort_split_max (L₁ L₂ : List ScoredMovie) (m : ScoredMovie)
    (h₁ : ∀ x ∈ L₁, x.final_score < m.final_score)
    (h₂ : ∀ x ∈ L₂, x.final_score ≤ m.final_score) :
    List.insertionSort (fun a b => b.final_score ≤ a.final_score) (L₁ ++ m :: L₂) =
      m :: List.insertionSort (fun a b => b.final_score ≤ a.final_score) (L₁ ++ L₂) := by
  induction L₁ with
  | nil =>
    simp only [List.nil_append]
    exact List.insertionSort_cons _ (fun b hb => h₂ b hb)
  | cons x L₁ ih =>
    simp only [List.cons_append, List.insertionSort, List.append_eq]
    rw [ih (fun z hz => h₁ z (List.mem_cons_of_mem x hz))]
    have hxm : ¬ m.final_score ≤ x.final_score :=
      not_le.2 (h₁ x (List.mem_cons_self x L₁))
    simp only [List.orderedInsert, hxm, if_false]

theorem map_getD_range {α : Type} [Inhabited α] (L : List α) :
    (List.range L.length).map (fun i => L.getD i default) = L := by
  apply List.ext_getElem
  · simp
  · intro i h1 h2
    simp only [List.getElem_map, List.getElem_range]
    rw [List.getD_eq_getElem?_getD, List.getElem?_eq_getElem h2]
    rfl

theorem mmrLoop_one (L : List ScoredMovie) (idToIdx : ℕ → Option ℕ) (pw : ℕ → ℕ → ℚ)
    (hL : ∀ x ∈ L, -(1000000000 : ℚ) < x.final_score) :
    ∀ (n : ℕ) (available selected : List ℕ), (∀ i ∈ available, i < L.length) →
      ∃ σ, mmrLoop 1 L idToIdx pw selected available n = some (selected ++ σ) ∧
        σ.map (fun i => L.getD i default) =
          (List.insertionSort (fun a b => b.final_score ≤ a.final_score)
            (available.map (fun i => L.getD i default))).take n := by
  intro n
  induction n with
  | zero =>
    intro available selected _
    exact ⟨[], by simp [mmrLoop], by simp⟩
  | succ n ih =>
    intro available selected hav
    by_cases hav0 : available = []
    · subst hav0
      exact ⟨[], by simp [mmrLoop], by simp⟩
    · have hf : mmrVal 1 L idToIdx pw selected =
          fun si => (L.getD si default).final_score :=
        funext fun si => mmrVal_one L idToIdx pw selected si
      cases hbest : argmaxFirst (mmrVal 1 L idToIdx pw selected) available with
      | none => exact absurd ((argmaxFirst_eq_none _ _).1 hbest) hav0
      | some m =>
        have hm_mem : m ∈ available := argmaxFirst_mem _ _ _ hbest
        have hm_lt : m < L.length := hav m hm_mem
        have hm_big : -(1000000000 : ℚ) < mmrVal 1 L idToIdx pw selected m := by
          rw [hf]
          exact hL _ (getD_mem_of_lt L m hm_lt)
        have hbest' : mmrBest 1 L idToIdx pw selected available = some m := by
          rw [mmrBest_eq_argmax, hbest]
          simp [hm_big]
        obtain ⟨l₁, l₂, heq, h₁, h₂⟩ := argmaxFirst_split _ _ _ hbest
        have hm_not_l₁ : m ∉ l₁ := fun hmem => absurd (h₁ m hmem) (lt_irrefl _)
        have herase : available.erase m = l₁ ++ l₂ := by
          rw [heq, List.erase_append_right _ hm_not_l₁, List.erase_cons_head]
        have hav' : ∀ i ∈ available.erase m, i < L.length := fun i hi =>
          hav i (List.erase_subset _ _ hi)
        obtain ⟨σ', hloop', hmap'⟩ := ih (available.erase m) (selected ++ [m]) hav'
        refine ⟨m :: σ', ?_, ?_⟩
        · rw [mmrLoop, if_neg hav0, hbest']
          show mmrLoop 1 L idToIdx pw (selected ++ [m]) (available.erase m) n = _
          rw [hloop']
          congr 1
          simp
        · have hsplit : available.map (fun i => L.getD i default) =
              l₁.map (fun i => L.getD i default) ++ (L.getD m default) ::
                l₂.map (fun i => L.getD i default) := by
            rw [heq]; simp
          rw [hsplit, insertionSort_split_max _ _ _
            (by
              intro x hx
              obtain ⟨j, hj, rfl⟩ := List.mem_map.1 hx
              have := h₁ j hj
              rw [hf] at this
              exact this)
            (by
              intro x hx
              obtain ⟨j, hj, rfl⟩ := List.mem_map.1 hx
              have := h₂ j hj
              rw [hf] at this
              exact this)]
          rw [List.take_succ_cons, List.map_cons]
          congr 1
          rw [hmap', herase]
          simp

/-- C5: greedy MMR selection with lambda = 1 returns exactly the stable
finalScore-descending-sorted top-N prefix of the scored list (provided
every final score beats the -1e9 sentinel, without which the source
raises and falls back); and at every MMR step, when several available
candidates attain the maximal MMR value, the first one in iteration
order is selected, so selection is deterministic for a stable input
ordering. -/
theorem mmr_lambda_one_sorted_and_first_tie_wins :
    (∀ (L : List ScoredMovie) (idToIdx : ℕ → Option ℕ) (pw : ℕ → ℕ → ℚ) (n : ℕ),
      (∀ x ∈ L, -(1000000000 : ℚ) < x.final_score) →
      mmr_select 1 L idToIdx pw n =
        (List.insertionSort (fun a b => b.final_score ≤ a.final_score) L).take n) ∧
    (∀ (lam : ℚ) (L : List ScoredMovie) (idToIdx : ℕ → Option ℕ) (pw : ℕ → ℕ → ℚ)
        (selected l₁ l₂ : List ℕ) (i : ℕ),
      (∀ j ∈ l₁, mmrVal lam L idToIdx pw selected j < mmrVal lam L idToIdx pw selected i) →
      (∀ j ∈ l₂, mmrVal lam L idToIdx pw selected j ≤ mmrVal lam L idToIdx pw selected i) →
      -(1000000000 : ℚ) < mmrVal lam L idToIdx pw selected i →
      mmrBest lam L idToIdx pw selected (l₁ ++ i :: l₂) = some i) := by
  constructor
  · intro L idToIdx pw n hL
    obtain ⟨σ, hloop, hmap⟩ := mmrLoop_one L idToIdx pw hL n (List.range L.length) []
      (fun i hi => List.mem_range.1 hi)
    unfold mmr_select
    rw [hloop]
    simp only [List.nil_append]
    rw [hmap, map_getD_range]
  · intro lam L idToIdx pw selected l₁ l₂ i h₁ h₂ hbig
    rw [mmrBest_eq_argmax, argmaxFirst_of_split _ _ _ _ h₁ h₂]
    simp [hbig]

/-- Witness for `mmr_lambda_one_sorted_and_first_tie_wins` on a concrete
two-candidate scored list. -/
theorem mmr_lambda_one_witness :
    (∀ x ∈ ([⟨⟨1, 0, 0, 0⟩, 1, 1⟩, ⟨⟨2, 0, 0, 0⟩, 2, 2⟩] : List ScoredMovie),
      -(1000000000 : ℚ) < x.final_score) ∧
    mmr_select 1 [⟨⟨1, 0, 0, 0⟩, 1, 1⟩, ⟨⟨2, 0, 0, 0⟩, 2, 2⟩]
        (fun _ => none) (fun _ _ => 0) 1 =
      (List.insertionSort (fun a b => b.final_score ≤ a.final_score)
        [⟨⟨1, 0, 0, 0⟩, 1, 1⟩, ⟨⟨2, 0, 0, 0⟩, 2, 2⟩]).take 1 := by
  have hb : ∀ x ∈ ([⟨⟨1, 0, 0, 0⟩, 1, 1⟩, ⟨⟨2, 0, 0, 0⟩, 2, 2⟩] : List ScoredMovie),
      -(1000000000 : ℚ) < x.final_score := by
    intro x hx
    rcases List.mem_cons.1 hx with rfl | hx
    · norm_num
    · rcases List.mem_cons.1 hx with rfl | hx
      · norm_num
      · exact absurd hx (List.not_mem_nil x)
  exact ⟨hb, mmr_lambda_one_sorted_and_first_tie_wins.1 _ _ _ _ hb⟩

/-! ## Personalization layer (user_preference.py)

`UserPreferenceEngine` state: the four preference accumulators are
string-keyed dicts modeled as functions into `Option ℚ`; the ratings map
(keyed by `str(movie_id)`) is a function from the id.  Only the profile
fields the personalization and rating paths read or write are modeled;
genre/actor/keyword entries that arrive as dicts have their `name` field
already extracted, and the `if value:` guards keep the test for the
empty name. -/

structure PrefMaps where
  genres : String → Option ℚ
  directors : String → Option ℚ
  actors : String → Option ℚ
  keywords : String → Option ℚ

structure UserMovie where
  id : ℕ
  genres : List String
  director : List String
  cast : List String
  keywords : List String
deriving Repr, DecidableEq

structure RatingEntry where
  rating : ℚ
  timestamp : ℕ
deriving Repr, DecidableEq

structure UserProfileS where
  ratings : ℕ → Option RatingEntry
  watchlist : List ℕ
  disliked : List ℕ
  liked : List ℕ
  preferences : PrefMaps

/-- Genre term accumulation of `_calculate_personalization_score`. -/
def genre_match_score (prefs : PrefMaps) (movie : UserMovie) : ℚ :=
  movie.genres.foldl (fun acc g =>
    match prefs.genres g with
    | some v => acc + v * (3/100)
    | none => acc) 0

/-- Director term accumulation of `_calculate_personalization_score`. -/
def director_match_score (prefs : PrefMaps) (movie : UserMovie) : ℚ :=
  movie.director.foldl (fun acc d =>
    match prefs.directors d with
    | some v => acc + v * (5/100)
    | none => acc) 0

/-- Actor term accumulation of `_calculate_personalization_score`
(top-5 cast only). -/
def actor_match_score (prefs : PrefMaps) (movie : UserMovie) : ℚ :=
  (movie.cast.take 5).foldl (fun acc a =>
    match prefs.actors a with
    | some v => acc + v * (1/100)
    | none => acc) 0

/-- Embedding of `UserPreferenceEngine._calculate_personalization_score`:
per-term clipping at 0.15 / 0.10 / 0.05 and a total cap of 0.30. -/
def _calculate_personalization_score (prefs : PrefMaps) (movie : UserMovie) : ℚ :=
  let score := (0 : ℚ)
  let score := score + min (genre_match_score prefs movie) (15/100)
  let score := score + min (director_match_score prefs movie) (1/10)
  let score := score + min (actor_match_score prefs movie) (1/20)
  min score (3/10)

/-- Pointwise order on optional accumulator values: same keys, values
not decreasing. -/
def optLE : Option ℚ → Option ℚ → Prop
  | none, none => True
  | some a, some b => a ≤ b
  | _, _ => False

/-- Pointwise order on full preference states. -/
def prefLE (p q : PrefMaps) : Prop :=
  (∀ s, optLE (p.genres s) (q.genres s)) ∧ (∀ s, optLE (p.directors s) (q.directors s)) ∧
  (∀ s, optLE (p.actors s) (q.actors s)) ∧ (∀ s, optLE (p.keywords s) (q.keywords s))

theorem foldl_match_mono (p q : String → Option ℚ) (c : ℚ) (hc : 0 ≤ c)
    (hpq : ∀ s, optLE (p s) (q s)) (l : List String) :
    ∀ a b : ℚ, a ≤ b →
      l.foldl (fun acc g => match p g with | some v => acc + v * c | none => acc) a ≤
      l.foldl (fun acc g => match q g with | some v => acc + v * c | none => acc) b := by
  induction l with
  | nil => intro a b h; exact h
  | cons g l ih =>
    intro a b h
    simp only [List.foldl_cons]
    have hg := hpq g
    cases hp : p g with
    | none =>
      cases hq : q g with
      | none => exact ih a b h
      | some w => rw [hp, hq] at hg; exact absurd hg (by simp [optLE])
    | some v =>
      cases hq : q g with
      | none => rw [hp, hq] at hg; exact absurd hg (by simp [optLE])
      | some w =>
        rw [hp, hq] at hg
        have hvw : v ≤ w := hg
        exact ih _ _ (add_le_add h (mul_le_mul_of_nonneg_right hvw hc))

theorem calc_personalization_eq (p : PrefMaps) (movie : UserMovie) :
    _calculate_personalization_score p movie =
      min (min (genre_match_score p movie) (15/100) +
        min (director_match_score p movie) (1/10) +
        min (actor_match_score p movie) (1/20)) (3/10) := by
  simp only [_calculate_personalization_score, zero_add]

/-- C6: the personalization boost is monotone non-decreasing in each
individual preference-accumulator value, each term is clipped at exactly
its cap (0.15 genre, 0.10 director, 0.05 actor), and the total boost is
clipped at exactly 0.30. -/
theorem personalization_monotone_and_capped :
    (∀ (p q : PrefMaps) (movie : UserMovie), prefLE p q →
      _calculate_personalization_score p movie ≤ _calculate_personalization_score q movie) ∧
    (∀ (p : PrefMaps) (movie : UserMovie),
      _calculate_personalization_score p movie =
        min (min (genre_match_score p movie) (15/100) +
          min (director_match_score p movie) (1/10) +
          min (actor_match_score p movie) (1/20)) (3/10) ∧
      min (genre_match_score p movie) (15/100) ≤ 15/100 ∧
      min (director_match_score p movie) (1/10) ≤ 1/10 ∧
      min (actor_match_score p movie) (1/20) ≤ 1/20 ∧
      _calculate_personalization_score p movie ≤ 3/10 ∧
      (15/100 ≤ genre_match_score p movie →
        min (genre_match_score p movie) (15/100) = 15/100) ∧
      (1/10 ≤ director_match_score p movie →
        min (director_match_score p movie) (1/10) = 1/10) ∧
      (1/20 ≤ actor_match_score p movie →
        min (actor_match_score p movie) (1/20) = 1/20) ∧
      (3/10 ≤ min (genre_match_score p movie) (15/100) +
          min (director_match_score p movie) (1/10) +
          min (actor_match_score p movie) (1/20) →
        _calculate_personalization_score p movie = 3/10)) := by
  constructor
  · intro p q movie hpq
    obtain ⟨hg, hd, ha, _⟩ := hpq
    have h1 : genre_match_score p movie ≤ genre_match_score q movie :=
      foldl_match_mono _ _ _ (by norm_num) hg movie.genres 0 0 le_rfl
    have h2 : director_match_score p movie ≤ director_match_score q movie :=
      foldl_match_mono _ _ _ (by norm_num) hd movie.director 0 0 le_rfl
    have h3 : actor_match_score p movie ≤ actor_match_score q movie :=
      foldl_match_mono _ _ _ (by norm_num) ha (movie.cast.take 5) 0 0 le_rfl
    have hsum : min (genre_match_score p movie) (15/100) +
        min (director_match_score p movie) (1/10) +
        min (actor_match_score p movie) (1/20) ≤
        min (genre_match_score q movie) (15/100) +
        min (director_match_score q movie) (1/10) +
        min (actor_match_score q movie) (1/20) :=
      add_le_add (add_le_add (min_le_min h1 le_rfl) (min_le_min h2 le_rfl))
        (min_le_min h3 le_rfl)
    rw [calc_personalization_eq, calc_personalization_eq]
    exact min_le_min hsum le_rfl
  · intro p movie
    refine ⟨calc_personalization_eq p movie, min_le_right _ _,
      min_le_right _ _, min_le_right _ _, ?_, ?_, ?_, ?_, ?_⟩
    · rw [calc_personalization_eq]
      exact min_le_right _ _
    · intro h; exact min_eq_right h
    · intro h; exact min_eq_right h
    · intro h; exact min_eq_right h
    · intro h
      rw [calc_personalization_eq]
      exact min_eq_right h

/-- Witness for `personalization_monotone_and_capped`: a concrete
preference state whose raw genre overlap exceeds the cap and is clipped
to exactly 0.15. -/
theorem personalization_capped_witness :
    (15 : ℚ)/100 ≤ genre_match_score
      ⟨fun _ => some 100, fun _ => none, fun _ => none, fun _ => none⟩
      ⟨1, ["drama"], [], [], []⟩ ∧
    min (genre_match_score
      ⟨fun _ => some 100, fun _ => none, fun _ => none, fun _ => none⟩
      ⟨1, ["drama"], [], [], []⟩) (15/100) = 15/100 := by
  have hg : genre_match_score
      ⟨fun _ => some 100, fun _ => none, fun _ => none, fun _ => none⟩
      ⟨1, ["drama"], [], [], []⟩ = 3 := by
    norm_num [genre_match_score]
  have hge : (15 : ℚ)/100 ≤ genre_match_score
      ⟨fun _ => some 100, fun _ => none, fun _ => none, fun _ => none⟩
      ⟨1, ["drama"], [], [], []⟩ := by rw [hg]; norm_num
  exact ⟨hge, ((personalization_monotone_and_capped.2
    ⟨fun _ => some 100, fun _ => none, fun _ => none, fun _ => none⟩
    ⟨1, ["drama"], [], [], []⟩).2.2.2.2.2.1 hge)⟩

/-! ## Preference accumulation (track_rating / _update_preferences) -/

/-- One dict accumulation
`prefs[key] = round(prefs.get(key, 0) + w, 2)`. -/
def dict_bump (m : String → Option ℚ) (key : String) (w : ℚ) : String → Option ℚ :=
  fun s => if s = key then some (pyRound ((m key).getD 0 + w) 2) else m s

/-- Embedding of `UserPreferenceEngine._update_preferences`: genres and
directors accumulate the full weight, the top-5 cast half of it, the
top-10 keywords 0.3 of it; empty names are skipped. -/
def _update_preferences (prefs : PrefMaps) (movie : UserMovie) (weight : ℚ) : PrefMaps :=
  { genres := movie.genres.foldl
      (fun acc g => if g ≠ "" then dict_bump acc g weight else acc) prefs.genres
    directors := movie.director.foldl
      (fun acc d => if d ≠ "" then dict_bump acc d weight else acc) prefs.directors
    actors := (movie.cast.take 5).foldl
      (fun acc a => if a ≠ "" then dict_bump acc a (weight * (1/2)) else acc) prefs.actors
    keywords := (movie.keywords.take 10).foldl
      (fun acc k => if k ≠ "" then dict_bump acc k (weight * (3/10)) else acc)
      prefs.keywords }

/-- Embedding of `UserPreferenceEngine.track_rating`: the rating is
always recorded with a timestamp; preferences are updated only when
movie data is supplied and the rating is at least 4, with weight
`rating / 5`. -/
def track_rating (profile : UserProfileS) (movie_id : ℕ) (rating : ℚ)
    (movie_data : Option UserMovie) (now : ℕ) : UserProfileS :=
  let profile' := { profile with
    ratings := fun k => if k = movie_id then some ⟨rating, now⟩ else profile.ratings k }
  match movie_data with
  | some md =>
    if 4 ≤ rating then
      { profile' with
        preferences := _update_preferences profile'.preferences md (rating / 5) }
    else profile'
  | none => profile'

/-- C10: `track_rating` always records the rating with its timestamp and
leaves other ratings untouched; the four preference accumulators change
only when movie data is supplied and the rating is at least 4, in which
case they are updated with weight rating/5 — genres and directors at
full weight, actors at half, keywords at 0.3 of it. -/
theorem track_rating_frame_and_weights :
    (∀ (prof : UserProfileS) (movie_id : ℕ) (rating : ℚ) (movie_data : Option UserMovie)
        (now : ℕ),
      (track_rating prof movie_id rating movie_data now).ratings movie_id =
        some ⟨rating, now⟩ ∧
      (∀ k, k ≠ movie_id →
        (track_rating prof movie_id rating movie_data now).ratings k =
          prof.ratings k) ∧
      (movie_data = none ∨ rating < 4 →
        (track_rating prof movie_id rating movie_data now).preferences =
          prof.preferences) ∧
      (∀ md, movie_data = some md → 4 ≤ rating →
        (track_rating prof movie_id rating movie_data now).preferences =
          _update_preferences prof.preferences md (rating / 5))) ∧
    (∀ (prefs : PrefMaps) (w : ℚ) (g d a k : String),
      g ≠ "" → d ≠ "" → a ≠ "" → k ≠ "" →
      (_update_preferences prefs ⟨0, [g], [d], [a], [k]⟩ w).genres g =
        some (pyRound ((prefs.genres g).getD 0 + w) 2) ∧
      (_update_preferences prefs ⟨0, [g], [d], [a], [k]⟩ w).directors d =
        some (pyRound ((prefs.directors d).getD 0 + w) 2) ∧
      (_update_preferences prefs ⟨0, [g], [d], [a], [k]⟩ w).actors a =
        some (pyRound ((prefs.actors a).getD 0 + w * (1/2)) 2) ∧
      (_update_preferences prefs ⟨0, [g], [d], [a], [k]⟩ w).keywords k =
        some (pyRound ((prefs.keywords k).getD 0 + w * (3/10)) 2)) := by
  constructor
  · intro prof movie_id rating movie_data now
    refine ⟨?_, ?_, ?_, ?_⟩
    · cases movie_data with
      | none => simp [track_rating]
      | some md =>
        by_cases hr : 4 ≤ rating <;> simp [track_rating, hr]
    · intro k hk
      cases movie_data with
      | none => simp [track_rating, hk]
      | some md =>
        by_cases hr : 4 ≤ rating <;> simp [track_rating, hr, hk]
    · intro hcase
      cases movie_data with
      | none => simp [track_rating]
      | some md =>
        rcases hcase with hnone | hlt
        · exact absurd hnone (by simp)
        · simp [track_rating, not_le.2 hlt]
    · intro md hmd hr
      subst hmd
      simp [track_rating, hr]
  · intro prefs w g d a k hg hd ha hk
    refine ⟨?_, ?_, ?_, ?_⟩
    · simp [_update_preferences, dict_bump, hg]
    · simp [_update_preferences, dict_bump, hd]
    · simp [_update_preferences, dict_bump, ha]
    · simp [_update_preferences, dict_bump, hk]

/-- Witness for `track_rating_frame_and_weights`: a low rating leaves
every accumulator unchanged. -/
theorem track_rating_frame_witness :
    ((some ⟨1, ["g"], [], [], []⟩ : Option UserMovie) = none ∨ (2 : ℚ) < 4) ∧
    (track_rating ⟨fun _ => none, [], [], [],
        ⟨fun _ => none, fun _ => none, fun _ => none, fun _ => none⟩⟩
      9 2 (some ⟨1, ["g"], [], [], []⟩) 77).preferences =
      (⟨fun _ => none, [], [], [],
        ⟨fun _ => none, fun _ => none, fun _ => none, fun _ => none⟩⟩ :
          UserProfileS).preferences := by
  refine ⟨Or.inr (by norm_num), ?_⟩
  exact (track_rating_frame_and_weights.1
    ⟨fun _ => none, [], [], [],
      ⟨fun _ => none, fun _ => none, fun _ => none, fun _ => none⟩⟩
    9 2 (some ⟨1, ["g"], [], [], []⟩) 77).2.2.1 (Or.inr (by norm_num))

/-! ## Personalized re-ranking (get_personalized_recommendations)

Base recommendations arrive as dicts carrying a movie profile plus
optional `final_score` / `similarity_score` keys; the base score is
`rec.get("final_score", rec.get("similarity_score", 0))`.  A disliked
candidate receives a fixed -0.5 penalty on its adjusted score; a
candidate whose id is already in the ratings map is skipped.  The
surviving entries are sorted by adjusted score and truncated. -/

structure BaseRec where
  movieProfile : UserMovie
  final_score : Option ℚ
  similarity_score : Option ℚ
deriving Repr, DecidableEq

structure PersonalizedRec where
  movieProfile : UserMovie
  personalization_score : ℚ
  final_score : ℚ
deriving Repr, DecidableEq

/-- `rec.get("final_score", rec.get("similarity_score", 0))`. -/
def base_score (rec : BaseRec) : ℚ :=
  rec.final_score.getD (rec.similarity_score.getD 0)

/-- Loop body of `get_personalized_recommendations`: personalization
boost, disliked penalty, then the already-rated skip. -/
def personalize_rec (profile : UserProfileS) (rec : BaseRec) : Option PersonalizedRec :=
  let b := base_score rec
  let p := _calculate_personalization_score profile.preferences rec.movieProfile
  let final := b + p
  let final := if rec.movieProfile.id ∈ profile.disliked then final - 1/2 else final
  if (profile.ratings rec.movieProfile.id).isSome then none
  else some
    { movieProfile := rec.movieProfile
      personalization_score := pyRound (p * 100) 1
      final_score := final }

/-- Embedding of `UserPreferenceEngine.get_personalized_recommendations`
downstream of the base recommendation fetch. -/
def get_personalized_recommendations (profile : UserProfileS) (base_recs : List BaseRec)
    (num_recommendations : ℕ) : List PersonalizedRec :=
  (List.insertionSort (fun a b => b.final_score ≤ a.final_score)
    (base_recs.filterMap (personalize_rec profile))).take num_recommendations

/-- C7 counterexample: a user profile with `disliked = [42]` (and no
ratings) still surfaces item 42 in the personalized output — the -0.5
penalty lowers its score but does not exclude it. -/
theorem disliked_item_can_surface :
    42 ∈ (get_personalized_recommendations
      ⟨fun _ => none, [], [42], [],
        ⟨fun _ => none, fun _ => none, fun _ => none, fun _ => none⟩⟩
      [⟨⟨42, [], [], [], []⟩, none, some 100⟩] 12).map
        (fun r => r.movieProfile.id) := by
  have hcalc : _calculate_personalization_score
      ⟨fun _ => none, fun _ => none, fun _ => none, fun _ => none⟩
      ⟨42, [], [], [], []⟩ = 0 := by
    rw [calc_personalization_eq]
    norm_num [genre_match_score, director_match_score, actor_match_score]
  have hrec : personalize_rec
      ⟨fun _ => none, [], [42], [],
        ⟨fun _ => none, fun _ => none, fun _ => none, fun _ => none⟩⟩
      ⟨⟨42, [], [], [], []⟩, none, some 100⟩ =
      some ⟨⟨42, [], [], [], []⟩, pyRound 0 1, 100 + 0 - 1/2⟩ := by
    simp [personalize_rec, base_score, hcalc]
  simp [get_personalized_recommendations, hrec, List.insertionSort]

/-- C7 amended: with 42 in the disliked set, a base candidate with id 42
is not excluded — it stays eligible with its adjusted score lowered by
exactly 0.5 (so it can still appear in the top N); a candidate is
dropped only when its id is already rated, and every entry of the
personalized output is unrated. -/
theorem disliked_penalty_not_exclusion (user : UserProfileS) (rec : BaseRec)
    (hdis : rec.movieProfile.id ∈ user.disliked) :
    ((user.ratings rec.movieProfile.id).isSome → personalize_rec user rec = none) ∧
    (¬ (user.ratings rec.movieProfile.id).isSome →
      personalize_rec user rec = some
        { movieProfile := rec.movieProfile
          personalization_score := pyRound
            (_calculate_personalization_score user.preferences rec.movieProfile * 100) 1
          final_score := base_score rec +
            _calculate_personalization_score user.preferences rec.movieProfile - 1/2 }) ∧
    (∀ (base_recs : List BaseRec) (n : ℕ) (r : PersonalizedRec),
      r ∈ get_personalized_recommendations user base_recs n →
      user.ratings r.movieProfile.id = none) := by
  refine ⟨?_, ?_, ?_⟩
  · intro hrated
    simp [personalize_rec, hrated]
  · intro hunrated
    simp [personalize_rec, hdis, hunrated]
  · intro base_recs n r hr
    have hr1 : r ∈ base_recs.filterMap (personalize_rec user) :=
      (List.mem_insertionSort _).1 (List.take_subset _ _ hr)
    obtain ⟨rec', _, hsome⟩ := List.mem_filterMap.1 hr1
    by_cases hrat : (user.ratings rec'.movieProfile.id).isSome
    · simp [personalize_rec, hrat] at hsome
    · rw [personalize_rec] at hsome
      simp only [if_neg hrat] at hsome
      have hid : r.movieProfile = rec'.movieProfile := by
        cases hsome
        rfl
      rw [hid]
      exact Option.not_isSome_iff_eq_none.1 hrat

/-- Witness for `disliked_penalty_not_exclusion` at a concrete disliked,
unrated candidate. -/
theorem disliked_penalty_witness :
    42 ∈ [42] ∧
    personalize_rec
      ⟨fun _ => none, [], [42], [],
        ⟨fun _ => none, fun _ => none, fun _ => none, fun _ => none⟩⟩
      ⟨⟨42, [], [], [], []⟩, none, some 100⟩ =
      some
        { movieProfile := ⟨42, [], [], [], []⟩
          personalization_score := pyRound
            (_calculate_personalization_score
              ⟨fun _ => none, fun _ => none, fun _ => none, fun _ => none⟩
              ⟨42, [], [], [], []⟩ * 100) 1
          final_score := base_score ⟨⟨42, [], [], [], []⟩, none, some 100⟩ +
            _calculate_personalization_score
              ⟨fun _ => none, fun _ => none, fun _ => none, fun _ => none⟩
              ⟨42, [], [], [], []⟩ - 1/2 } := by
  refine ⟨by simp, ?_⟩
  exact (disliked_penalty_not_exclusion
    ⟨fun _ => none, [], [42], [],
      ⟨fun _ => none, fun _ => none, fun _ => none, fun _ => none⟩⟩
    ⟨⟨42, [], [], [], []⟩, none, some 100⟩ (by simp)).2.1 (by simp)

/-! ## Offline similarity-model builder (movielens.py)

`build_and_save_cf_model` and its helpers.  Ratings rows and the id
crosswalk are lists of records; pandas `Series.unique` preserves first
appearance; the sparse item-by-user matrix is the function summing all
ratings of an (item, user) cell (`csr_matrix` adds duplicate entries);
`np.sqrt` norms live in `ℝ`.  The row blocks of the block-wise pass only
partition the row range to bound memory — every row's neighbor result is
independent of `block_size`, so the embedding computes per row and
carries `block_size` as an inert parameter.  The sparse row product
keeps exactly the columns whose dot product is numerically nonzero, and
`np.argpartition` + `np.argsort` tie order is modeled as a stable
descending sort (no claim here depends on tie order).  Writing the
snapshot to disk is modeled by returning `some payload`; returning
`none` is the no-model result with nothing written. -/

structure MLRating where
  userId : ℕ
  movieId : ℕ
  rating : ℚ
deriving Repr, DecidableEq

structure MLLink where
  movieId : ℕ
  tmdbId : Option ℕ
deriving Repr, DecidableEq

/-- Embedding of `build_tmdb_mapping`: drop rows with a missing tmdbId,
keep both directions of the crosswalk. -/
def build_tmdb_mapping (links : List MLLink) : List (ℕ × ℕ) × List (ℕ × ℕ) :=
  let clean := (links.filter fun l => l.tmdbId.isSome).map
    fun l => (l.movieId, l.tmdbId.getD 0)
  (clean, clean.map fun kv => (kv.2, kv.1))

/-- First-appearance deduplication (`pandas.Series.unique`). -/
def uniqueFirst (l : List ℕ) : List ℕ :=
  l.foldl (fun acc x => if x ∈ acc then acc else acc ++ [x]) []

/-- The item-by-user rating matrix as a total function. -/
structure ItemUser where
  n_items : ℕ
  n_users : ℕ
  entry : ℕ → ℕ → ℚ

/-- Embedding of `build_item_user_matrix`: rows are distinct items and
columns distinct users in first-appearance order; each cell sums every
rating landing on it. -/
def build_item_user_matrix (ratings : List MLRating) :
    ItemUser × List ℕ × List ℕ :=
  let unique_users := uniqueFirst (ratings.map (·.userId))
  let unique_items := uniqueFirst (ratings.map (·.movieId))
  ({ n_items := unique_items.length
     n_users := unique_users.length
     entry := fun i j =>
       ((ratings.filter fun r =>
          unique_items.indexOf r.movieId = i ∧ unique_users.indexOf r.userId = j).map
            (·.rating)).sum },
   unique_items, unique_users)

/-- Dot product of two item rows. -/
def dotQ (M : ItemUser) (g i : ℕ) : ℚ :=
  ∑ j ∈ Finset.range M.n_users, M.entry g j * M.entry i j

/-- Row norm with the `1e-10` epsilon of the source. -/
noncomputable def rowNorm (M : ItemUser) (i : ℕ) : ℝ :=
  Real.sqrt ((dotQ M i i : ℚ) : ℝ) + 1/10^10

/-- Cosine similarity of two item rows as computed by the source
(`vals / (norms[g] * norms[idx])`). -/
noncomputable def simRow (M : ItemUser) (g i : ℕ) : ℝ :=
  ((dotQ M g i : ℚ) : ℝ) / (rowNorm M g * rowNorm M i)

/-- Columns surviving the sparse row product and the self mask: nonzero
dot product and not the row itself. -/
def nbrCandidates (M : ItemUser) (g : ℕ) : List ℕ :=
  (List.range M.n_items).filter fun j => dotQ M g j ≠ 0 ∧ j ≠ g

/-- The up-to-`top_k` kept neighbors of row `g`, in descending
similarity order. -/
noncomputable def nbr_kept (M : ItemUser) (top_k g : ℕ) : List ℕ :=
  (List.insertionSort (fun a b => simRow M g b ≤ simRow M g a)
    (nbrCandidates M g)).take top_k

/-- Row `g` of `top_indices`: kept neighbors then zero padding. -/
noncomputable def nbr_idx_row (M : ItemUser) (top_k g : ℕ) : List ℕ :=
  nbr_kept M top_k g ++ List.replicate (top_k - (nbr_kept M top_k g).length) 0

/-- Row `g` of `top_scores`: kept similarities then zero padding. -/
noncomputable def nbr_score_row (M : ItemUser) (top_k g : ℕ) : List ℝ :=
  (nbr_kept M top_k g).map (simRow M g) ++
    List.replicate (top_k - (nbr_kept M top_k g).length) 0

/-- Embedding of `compute_item_similarities_blockwise` (the `block_size`
partition of the row range does not change any per-row result). -/
noncomputable def compute_item_similarities_blockwise (M : ItemUser)
    (top_k block_size : ℕ) : List (List ℕ) × List (List ℝ) :=
  ((List.range M.n_items).map (nbr_idx_row M top_k),
   (List.range M.n_items).map (nbr_score_row M top_k))

structure CFPayload where
  item_index : List (ℕ × ℕ)
  user_index : List (ℕ × ℕ)
  top_indices : List (List ℕ)
  top_scores : List (List ℝ)
  index_to_movieId : List ℕ
  movieId_to_tmdbId : List (ℕ × ℕ)
  tmdbId_to_movieId : List (ℕ × ℕ)

/-- Ratings surviving the crosswalk filter
(`ratings[ratings['movieId'].isin(movie_to_tmdb.keys())]`). -/
def crosswalk_valid (ratings : List MLRating) (links : List MLLink) : List MLRating :=
  ratings.filter fun r => r.movieId ∈ (build_tmdb_mapping links).1.map (·.1)

/-- Embedding of `build_and_save_cf_model`: crosswalk filter, minimum
per-item rating count prune (only when `min_item_ratings > 1`), empty
check, then matrix/similarity construction and the persisted payload. -/
noncomputable def build_and_save_cf_model (ratings : List MLRating) (links : List MLLink)
    (top_k min_item_ratings block_size : ℕ) : Option CFPayload :=
  let maps := build_tmdb_mapping links
  let valid := crosswalk_valid ratings links
  let valid2 := if 1 < min_item_ratings then
      valid.filter (fun r =>
        min_item_ratings ≤ (valid.filter fun x => x.movieId = r.movieId).length)
    else valid
  if valid2 = [] then none
  else
    let mat := build_item_user_matrix valid2
    let sims := compute_item_similarities_blockwise mat.1 top_k block_size
    some
      { item_index := mat.2.1.enum.map fun p => (p.2, p.1)
        user_index := mat.2.2.enum.map fun p => (p.2, p.1)
        top_indices := sims.1
        top_scores := sims.2
        index_to_movieId := mat.2.1
        movieId_to_tmdbId := maps.1
        tmdbId_to_movieId := maps.2 }

/-- C8: when, after dropping ratings for items absent from the id
crosswalk, every remaining item has fewer than `min_item_ratings`
ratings, the builder returns the no-model result `none` (no exception in
this total embedding, and no snapshot is produced). -/
theorem builder_no_model_on_sparse_items (ratings : List MLRating) (links : List MLLink)
    (top_k min_item_ratings block_size : ℕ)
    (h : ∀ r ∈ crosswalk_valid ratings links,
      ((crosswalk_valid ratings links).filter
        fun x => x.movieId = r.movieId).length < min_item_ratings) :
    build_and_save_cf_model ratings links top_k min_item_ratings block_size = none := by
  unfold build_and_save_cf_model
  by_cases hmin : 1 < min_item_ratings
  · have hempty : (crosswalk_valid ratings links).filter
        (fun r => decide (min_item_ratings ≤
          ((crosswalk_valid ratings links).filter
            fun x => x.movieId = r.movieId).length)) = [] := by
      rw [List.filter_eq_nil_iff]
      intro r hr
      simp only [decide_eq_true_eq, not_le]
      exact h r hr
    simp only [hmin, if_true, hempty, if_pos rfl]
  · have hempty : crosswalk_valid ratings links = [] := by
      by_contra hne
      obtain ⟨r, hr⟩ := List.exists_mem_of_ne_nil _ hne
      have hmem : r ∈ (crosswalk_valid ratings links).filter
          fun x => x.movieId = r.movieId := by
        rw [List.mem_filter]
        exact ⟨hr, by simp⟩
      have h1 : 1 ≤ ((crosswalk_valid ratings links).filter
          fun x => x.movieId = r.movieId).length :=
        List.length_pos.2 (List.ne_nil_of_mem hmem)
      have h2 := h r hr
      omega
    simp [hmin, hempty]

/-- Witness for `builder_no_model_on_sparse_items`: a single-rating
table pruned away by `min_item_ratings = 2`. -/
theorem builder_no_model_witness :
    (∀ r ∈ crosswalk_valid [⟨1, 10, 4⟩] [⟨10, some 99⟩],
      ((crosswalk_valid [⟨1, 10, 4⟩] [⟨10, some 99⟩]).filter
        fun x => x.movieId = r.movieId).length < 2) ∧
    build_and_save_cf_model [⟨1, 10, 4⟩] [⟨10, some 99⟩] 50 2 500 = none := by
  have hval : crosswalk_valid [⟨1, 10, 4⟩] [⟨10, some 99⟩] = [⟨1, 10, 4⟩] := by
    norm_num [crosswalk_valid, build_tmdb_mapping]
  have hcount : ∀ r ∈ crosswalk_valid [⟨1, 10, 4⟩] [⟨10, some 99⟩],
      ((crosswalk_valid [⟨1, 10, 4⟩] [⟨10, some 99⟩]).filter
        fun x => x.movieId = r.movieId).length < 2 := by
    rw [hval]
    intro r hr
    rcases List.mem_singleton.1 hr with rfl
    norm_num
  exact ⟨hcount, builder_no_model_on_sparse_items _ _ 50 2 500 hcount⟩

/-! ## Neighbor-table invariants of the similarity builder -/

theorem rowNorm_pos (M : ItemUser) (i : ℕ) : 0 < rowNorm M i := by
  unfold rowNorm
  have := Real.sqrt_nonneg (((dotQ M i i : ℚ) : ℝ))
  norm_num
  linarith

theorem dotQ_self_nonneg (M : ItemUser) (i : ℕ) : 0 ≤ dotQ M i i :=
  Finset.sum_nonneg fun j _ => mul_self_nonneg _

theorem dotQ_sq_le (M : ItemUser) (g i : ℕ) :
    dotQ M g i ^ 2 ≤ dotQ M g g * dotQ M i i := by
  unfold dotQ
  have h := Finset.sum_mul_sq_le_sq_mul_sq (Finset.range M.n_users)
    (fun j => M.entry g j) (fun j => M.entry i j)
  calc (∑ j ∈ Finset.range M.n_users, M.entry g j * M.entry i j) ^ 2 ≤
      (∑ j ∈ Finset.range M.n_users, M.entry g j ^ 2) *
        ∑ j ∈ Finset.range M.n_users, M.entry i j ^ 2 := h
    _ = (∑ j ∈ Finset.range M.n_users, M.entry g j * M.entry g j) *
        ∑ j ∈ Finset.range M.n_users, M.entry i j * M.entry i j := by
      simp [sq]

theorem abs_simRow_le_one (M : ItemUser) (g i : ℕ) : |simRow M g i| ≤ 1 := by
  have hden : 0 < rowNorm M g * rowNorm M i :=
    mul_pos (rowNorm_pos M g) (rowNorm_pos M i)
  have habs : |simRow M g i| =
      |((dotQ M g i : ℚ) : ℝ)| / (rowNorm M g * rowNorm M i) := by
    unfold simRow
    rw [abs_div, abs_of_pos hden]
  rw [habs, div_le_one hden]
  have hsq : (((dotQ M g i : ℚ) : ℝ)) ^ 2 ≤
      ((dotQ M g g : ℚ) : ℝ) * ((dotQ M i i : ℚ) : ℝ) := by
    exact_mod_cast dotQ_sq_le M g i
  have h1 : |((dotQ M g i : ℚ) : ℝ)| ≤
      Real.sqrt (((dotQ M g g : ℚ) : ℝ) * ((dotQ M i i : ℚ) : ℝ)) := by
    rw [← Real.sqrt_sq_eq_abs]
    exact Real.sqrt_le_sqrt hsq
  have hgg : (0 : ℝ) ≤ ((dotQ M g g : ℚ) : ℝ) := by exact_mod_cast dotQ_self_nonneg M g
  have hii : (0 : ℝ) ≤ ((dotQ M i i : ℚ) : ℝ) := by exact_mod_cast dotQ_self_nonneg M i
  have h2 : Real.sqrt (((dotQ M g g : ℚ) : ℝ) * ((dotQ M i i : ℚ) : ℝ)) =
      Real.sqrt ((dotQ M g g : ℚ) : ℝ) * Real.sqrt ((dotQ M i i : ℚ) : ℝ) :=
    Real.sqrt_mul hgg _
  have h3 : Real.sqrt ((dotQ M g g : ℚ) : ℝ) * Real.sqrt ((dotQ M i i : ℚ) : ℝ) ≤
      rowNorm M g * rowNorm M i := by
    unfold rowNorm
    have s1 := Real.sqrt_nonneg (((dotQ M g g : ℚ) : ℝ))
    have s2 := Real.sqrt_nonneg (((dotQ M i i : ℚ) : ℝ))
    nlinarith
  calc |((dotQ M g i : ℚ) : ℝ)| ≤ _ := h1
    _ = _ := h2
    _ ≤ _ := h3

theorem simRow_nonneg_of_nonneg (M : ItemUser) (hM : ∀ i j, 0 ≤ M.entry i j) (g i : ℕ) :
    0 ≤ simRow M g i := by
  unfold simRow
  apply div_nonneg
  · have : (0 : ℚ) ≤ dotQ M g i :=
      Finset.sum_nonneg fun j _ => mul_nonneg (hM g j) (hM i j)
    exact_mod_cast this
  · exact le_of_lt (mul_pos (rowNorm_pos M g) (rowNorm_pos M i))

theorem sorted_replicate_zero (n : ℕ) :
    List.Sorted (fun a b : ℝ => b ≤ a) (List.replicate n 0) :=
  List.pairwise_replicate.2 (Or.inr le_rfl)

theorem getD_map_range {α : Type} (f : ℕ → α) (n g : ℕ) (h : g < n) (d : α) :
    ((List.range n).map f).getD g d = f g := by
  rw [List.getD_eq_getElem?_getD, List.getElem?_map, List.getElem?_range h]
  rfl

theorem nbr_kept_subset_candidates (M : ItemUser) (top_k g : ℕ) :
    ∀ j ∈ nbr_kept M top_k g, j ∈ nbrCandidates M g := fun j hj =>
  (List.mem_insertionSort _).1 (List.take_subset _ _ hj)

theorem nbr_kept_sorted (M : ItemUser) (top_k g : ℕ) :
    List.Sorted (fun a b => simRow M g b ≤ simRow M g a) (nbr_kept M top_k g) := by
  haveI : IsTotal ℕ (fun a b => simRow M g b ≤ simRow M g a) :=
    ⟨fun a b => le_total (simRow M g b) (simRow M g a)⟩
  haveI : IsTrans ℕ (fun a b => simRow M g b ≤ simRow M g a) :=
    ⟨fun _ _ _ hab hbc => le_trans hbc hab⟩
  exact List.Pairwise.sublist (List.take_sublist _ _)
    (List.sorted_insertionSort _ (nbrCandidates M g))

/-- C9 counterexample: on the 2-item, 1-user matrix with entries 1 and
-1 and K = 2, row 0 of the produced neighbor table contains the row's
own index 0 (as zero padding), and its score row [negative, 0] is not
sorted in descending order. -/
theorem neighbor_table_counterexample :
    0 ∈ (compute_item_similarities_blockwise
      ⟨2, 1, fun i j => if i = 0 ∧ j = 0 then 1 else
        if i = 1 ∧ j = 0 then -1 else 0⟩ 2 500).1.getD 0 [] ∧
    ¬ List.Sorted (fun a b : ℝ => b ≤ a)
      ((compute_item_similarities_blockwise
        ⟨2, 1, fun i j => if i = 0 ∧ j = 0 then 1 else
          if i = 1 ∧ j = 0 then -1 else 0⟩ 2 500).2.getD 0 []) := by
  set M : ItemUser := ⟨2, 1, fun i j => if i = 0 ∧ j = 0 then 1 else
    if i = 1 ∧ j = 0 then -1 else 0⟩ with hM
  have hdot01 : dotQ M 0 1 = -1 := by
    simp [dotQ, hM, Finset.sum_range_one]
  have hdot00 : dotQ M 0 0 = 1 := by
    simp [dotQ, hM, Finset.sum_range_one]
  have hdot11 : dotQ M 1 1 = 1 := by
    simp [dotQ, hM, Finset.sum_range_one]
  have hcand : nbrCandidates M 0 = [1] := by
    simp [nbrCandidates, List.range_succ, hdot01]
  have hkept : nbr_kept M 2 0 = [1] := by
    simp [nbr_kept, hcand, List.insertionSort]
  have hidx : (compute_item_similarities_blockwise M 2 500).1.getD 0 [] = [1, 0] := by
    show ((List.range M.n_items).map (nbr_idx_row M 2)).getD 0 [] = [1, 0]
    rw [getD_map_range _ _ _ (by norm_num [hM]) _]
    simp [nbr_idx_row, hkept]
  have hsim : simRow M 0 1 < 0 := by
    unfold simRow
    apply div_neg_of_neg_of_pos
    · rw [hdot01]; norm_num
    · exact mul_pos (rowNorm_pos M 0) (rowNorm_pos M 1)
  have hsc : (compute_item_similarities_blockwise M 2 500).2.getD 0 [] =
      [simRow M 0 1, 0] := by
    show ((List.range M.n_items).map (nbr_score_row M 2)).getD 0 [] = [simRow M 0 1, 0]
    rw [getD_map_range _ _ _ (by norm_num [hM]) _]
    simp [nbr_score_row, hkept]
  refine ⟨by rw [hidx]; simp, ?_⟩
  rw [hsc]
  intro hsorted
  have := List.rel_of_sorted_cons hsorted 0 (by simp)
  linarith

/-- C9 amended: the entries of a row with a nonzero stored score are
never the row's own index (self is masked before top-K selection); the
kept prefix is sorted by descending similarity and is followed by zero
padding in both arrays, each row having width exactly K; every stored
score is a cosine similarity in [-1, 1]; and for a non-negative rating
matrix all scores are non-negative and the whole score row is sorted
descending.  (Row 0's zero padding reuses index 0, which is why the
original no-self claim fails there.) -/
theorem neighbor_table_invariants (M : ItemUser) (top_k block_size g : ℕ)
    (hg : g < M.n_items) :
    (∀ j ∈ nbr_kept M top_k g, j ≠ g) ∧
    (compute_item_similarities_blockwise M top_k block_size).1.getD g [] =
      nbr_kept M top_k g ++
        List.replicate (top_k - (nbr_kept M top_k g).length) 0 ∧
    (compute_item_similarities_blockwise M top_k block_size).2.getD g [] =
      (nbr_kept M top_k g).map (simRow M g) ++
        List.replicate (top_k - (nbr_kept M top_k g).length) 0 ∧
    ((compute_item_similarities_blockwise M top_k block_size).1.getD g []).length =
      top_k ∧
    ((compute_item_similarities_blockwise M top_k block_size).2.getD g []).length =
      top_k ∧
    List.Sorted (fun a b : ℝ => b ≤ a) ((nbr_kept M top_k g).map (simRow M g)) ∧
    (∀ s ∈ (compute_item_similarities_blockwise M top_k block_size).2.getD g [],
      |s| ≤ 1) ∧
    ((∀ i j, 0 ≤ M.entry i j) →
      (∀ s ∈ (compute_item_similarities_blockwise M top_k block_size).2.getD g [],
        0 ≤ s) ∧
      List.Sorted (fun a b : ℝ => b ≤ a)
        ((compute_item_similarities_blockwise M top_k block_size).2.getD g [])) := by
  have hidx : (compute_item_similarities_blockwise M top_k block_size).1.getD g [] =
      nbr_idx_row M top_k g := getD_map_range _ _ _ hg _
  have hsc : (compute_item_similarities_blockwise M top_k block_size).2.getD g [] =
      nbr_score_row M top_k g := getD_map_range _ _ _ hg _
  have hlen : (nbr_kept M top_k g).length ≤ top_k := by
    unfold nbr_kept
    exact List.length_take_le _ _
  have hself : ∀ j ∈ nbr_kept M top_k g, j ≠ g := by
    intro j hj
    have := nbr_kept_subset_candidates M top_k g j hj
    unfold nbrCandidates at this
    have := List.of_mem_filter this
    simp only [decide_eq_true_eq] at this
    exact this.2
  have hsortedmap : List.Sorted (fun a b : ℝ => b ≤ a)
      ((nbr_kept M top_k g).map (simRow M g)) := by
    apply List.Pairwise.map (simRow M g) (fun a b h => h)
    exact nbr_kept_sorted M top_k g
  refine ⟨hself, by rw [hidx]; rfl, by rw [hsc]; rfl, ?_, ?_, hsortedmap, ?_, ?_⟩
  · rw [hidx]
    unfold nbr_idx_row
    simp [Nat.add_sub_cancel' hlen]
  · rw [hsc]
    unfold nbr_score_row
    simp [Nat.add_sub_cancel' hlen]
  · intro s hs
    rw [hsc] at hs
    unfold nbr_score_row at hs
    rcases List.mem_append.1 hs with hs | hs
    · obtain ⟨j, _, rfl⟩ := List.mem_map.1 hs
      exact abs_simRow_le_one M g j
    · rw [List.eq_of_mem_replicate hs]
      norm_num
  · intro hM
    have hnn : ∀ s ∈ (compute_item_similarities_blockwise M top_k block_size).2.getD g [],
        0 ≤ s := by
      intro s hs
      rw [hsc] at hs
      unfold nbr_score_row at hs
      rcases List.mem_append.1 hs with hs | hs
      · obtain ⟨j, _, rfl⟩ := List.mem_map.1 hs
        exact simRow_nonneg_of_nonneg M hM g j
      · rw [List.eq_of_mem_replicate hs]
    refine ⟨hnn, ?_⟩
    rw [hsc]
    unfold nbr_score_row
    show List.Pairwise (fun a b : ℝ => b ≤ a) _
    rw [List.pairwise_append]
    refine ⟨hsortedmap, sorted_replicate_zero _, ?_⟩
    intro x hx y hy
    rw [List.eq_of_mem_replicate hy]
    obtain ⟨j, _, rfl⟩ := List.mem_map.1 hx
    exact simRow_nonneg_of_nonneg M hM g j

/-- Witness for `neighbor_table_invariants` on a concrete non-negative
1-item matrix. -/
theorem neighbor_table_invariants_witness :
    (0 < (⟨1, 1, fun _ _ => 1⟩ : ItemUser).n_items) ∧
    (∀ s ∈ (compute_item_similarities_blockwise
      (⟨1, 1, fun _ _ => 1⟩ : ItemUser) 3 500).2.getD 0 [], |s| ≤ 1) := by
  refine ⟨by norm_num, ?_⟩
  exact (neighbor_table_invariants (⟨1, 1, fun _ _ => 1⟩ : ItemUser) 3 500 0
    (by norm_num)).2.2.2.2.2.2.1
